import Mathlib

/-!
Shallow embedding of `src/app.py` (Excel Sheet Merger).

The embedded logic comprises:
* `normalize_sheet_name` — the case/space/underscore-insensitive normalizer
  (`str(name).strip().lower().replace(' ', '').replace('_', '')`);
* `process_excel_file` — per-file processing: build a normalized-name lookup
  over the worksheets (Python dict semantics, last insertion wins), then for
  each target sheet name extract the matched worksheet's data rows with
  provenance, catching per-sheet read errors and whole-file open errors;
* the session trigger loop — filter uploaded files against the processed-files
  set, process each new file, merge its results into the aggregation state and
  record its log lines;
* `create_individual_excel_file` — export of an aggregated row sequence into a
  single-worksheet document with the three provenance columns.

Modelling conventions: machine-level effects are made explicit.  An exception
raised while opening/parsing a whole file is the `openError` field of
`ExcelFile`; an exception raised while reading one worksheet is the
`readError` field of `Worksheet`; catching an exception is returning normally
from the embedded function.  Whether `os.unlink` ran on the temporary file is
the `tempDeleted` flag of the processing result.  Strings are modelled over
ASCII character operations (`Char.toLower`, the ASCII whitespace set), which
covers every behaviour the specification discusses.  Log messages are modelled
by their informational content (which name / which underlying message), not
their byte-for-byte decoration.
-/

/-- Cell values as they appear in worksheet rows. -/
inductive Cell where
  | str (s : String)
  | num (n : Nat)
deriving DecidableEq

/-- A worksheet row, as the ordered dict `row.to_dict()` produces: column
name to cell value. -/
abbrev RowData := List (String × Cell)

/-- One worksheet of an uploaded file.  `rows` are the tabular data rows
(the header row has already been consumed as the column names inside each
`RowData`).  `readError = some e` models `pd.read_excel` raising exception
`e` on this sheet. -/
structure Worksheet where
  name : String
  rows : List RowData
  readError : Option String := none
deriving DecidableEq

/-- One uploaded file.  `openError = some e` models an exception `e` raised
while opening/parsing the whole document (`pd.ExcelFile`), i.e. after the
temporary file has been materialized but before any sheet is read. -/
structure ExcelFile where
  name : String
  sheets : List Worksheet
  openError : Option String := none
deriving DecidableEq

/-- ASCII whitespace characters stripped by Python `str.strip()`. -/
def isPySpace (c : Char) : Bool :=
  c = ' ' || c = '\t' || c = '\n' || c = Char.ofNat 11 || c = Char.ofNat 12 || c = Char.ofNat 13

/-- Python `s.strip()`: drop leading and trailing whitespace. -/
def pyStrip (s : List Char) : List Char :=
  ((s.dropWhile isPySpace).reverse.dropWhile isPySpace).reverse

/-- Embeds `normalize_sheet_name` (src/app.py line 24):
`str(name).strip().lower().replace(' ', '').replace('_', '')`. -/
def normalize_sheet_name (s : String) : String :=
  String.mk ((((pyStrip s.toList).map Char.toLower).filter (fun c => c != ' ')).filter
    (fun c => c != '_'))

/-- Modelled from the spec (§4.1): trim leading/trailing whitespace,
lowercase, then remove all interior space characters and underscore
characters.  After trimming, no space is left at either boundary, so removing
the interior spaces is removing every remaining space. -/
def normalizeSpec (s : String) : String :=
  String.mk (((pyStrip s.toList).map Char.toLower).filter (fun c => c != ' ' && c != '_'))

/-- Python dict lookup `m[k]`/`m.get(k)` on an insertion-ordered dict encoded
as an association list with unique keys. -/
def dictLookup (m : List (String × α)) (k : String) : Option α :=
  (m.find? (fun p => p.1 == k)).map Prod.snd

/-- Python dict assignment `m[k] = v`: replace in place if the key exists
(keeping its position), otherwise append at the end. -/
def dictInsert (m : List (String × α)) (k : String) (v : α) : List (String × α) :=
  match m with
  | [] => [(k, v)]
  | p :: rest => if p.1 == k then (k, v) :: rest else p :: dictInsert rest k v

/-- Embeds the `sheet_mapping` construction (src/app.py lines 52–55): iterate
the worksheet names in enumeration order, keyed by normalized name; a later
worksheet silently overwrites an earlier one with the same key. -/
def sheet_mapping (names : List String) : List (String × String) :=
  names.foldl (fun m n => dictInsert m (normalize_sheet_name n) n) []

/-- Retrieval of a worksheet by its exact original name, as
`pd.read_excel(path, sheet_name=original_sheet)` does.  Worksheet names are
unique inside one workbook. -/
def findSheet (sheets : List Worksheet) (n : String) : Option Worksheet :=
  sheets.find? (fun ws => ws.name == n)

/-- An extracted row with provenance (src/app.py lines 74–80). -/
structure ExtractedRow where
  data : RowData
  source_file : String
  source_sheet : String
  row_index : Nat
deriving DecidableEq

/-- Results mapping of `process_excel_file` and the session aggregation
state: a `defaultdict(list)` from target sheet name to extracted rows. -/
abbrev ResultsMap := List (String × List ExtractedRow)

/-- Embeds `results[k].extend(rows)` on a `defaultdict(list)`: extend the
entry in place if the key exists, else create it at the end. -/
def resultsAppend (m : ResultsMap) (k : String) (rows : List ExtractedRow) : ResultsMap :=
  match m with
  | [] => [(k, rows)]
  | p :: rest => if p.1 == k then (p.1, p.2 ++ rows) :: rest else p :: resultsAppend rest k rows

/-- Embeds the `df.iterrows()` loop (src/app.py lines 73–80): one
`ExtractedRow` per data row, with the file display name, the matched
worksheet's original name, and the zero-based row position. -/
def extract_rows (fileName : String) (ws : Worksheet) : List ExtractedRow :=
  ws.rows.enum.map (fun p => { data := p.2, source_file := fileName,
                               source_sheet := ws.name, row_index := p.1 })

/-- Accumulator of the per-target loop: results so far, file log lines so
far, number of matched sheets found so far. -/
abbrev TargetAcc := ResultsMap × List String × Nat

/-- Embeds one iteration of the `for target_sheet in target_sheets` loop
(src/app.py lines 59–88): normalized lookup, read of the matched sheet
(whose failure is caught and logged), empty-sheet warning, row extraction.
The inner `findSheet` miss is unreachable (the mapping stores names drawn
from the workbook) and leaves the accumulator unchanged. -/
def processTarget (f : ExcelFile) (acc : TargetAcc) (t : String) : TargetAcc :=
  let results := acc.1
  let log := acc.2.1
  let nMatches := acc.2.2
  match dictLookup (sheet_mapping (f.sheets.map Worksheet.name)) (normalize_sheet_name t) with
  | none => (results, log ++ ["Sheet " ++ t ++ " not found"], nMatches)
  | some origName =>
    match findSheet f.sheets origName with
    | none => (results, log, nMatches)
    | some ws =>
      match ws.readError with
      | some e => (results, log ++ ["Error reading sheet " ++ origName ++ ": " ++ e], nMatches)
      | none =>
        if ws.rows.isEmpty then
          (results, log ++ ["Sheet " ++ origName ++ " is empty"], nMatches)
        else
          (resultsAppend results t (extract_rows f.name ws),
           log ++ ["Found sheet " ++ origName], nMatches + 1)

/-- Result of processing one file: the extracted-rows mapping, the file's
log lines, and whether the temporary file was unlinked before returning. -/
structure ProcessResult where
  results : ResultsMap
  log : List String
  tempDeleted : Bool
deriving DecidableEq

/-- Embeds `process_excel_file` (src/app.py lines 35–101).  On a whole-file
open/parse exception the `except` at line 98 catches it, logs the file name
with the message, and returns with empty results — and `os.unlink` (line 96,
inside the `try`) has been skipped, so the temporary file survives.  On the
normal path the per-target loop runs, a summary line is appended, and the
temporary file is unlinked. -/
def process_excel_file (f : ExcelFile) (target_sheets : List String) : ProcessResult :=
  match f.openError with
  | some e =>
    { results := [], log := ["Error processing file " ++ f.name ++ ": " ++ e],
      tempDeleted := false }
  | none =>
    let init : TargetAcc := ([], ["Processing file: " ++ f.name,
      "Found " ++ toString f.sheets.length ++ " sheets"], 0)
    let res := target_sheets.foldl (processTarget f) init
    { results := res.1,
      log := res.2.1 ++ (if res.2.2 = 0 then ["No matching sheets found in file"]
        else ["Successfully processed " ++ toString res.2.2 ++ " matching sheets"]),
      tempDeleted := true }

/-- Rows stored under key `t` (absent key reads as the empty sequence, as a
`defaultdict(list)` renders it). -/
def rowsFor (m : ResultsMap) (t : String) : List ExtractedRow :=
  (dictLookup m t).getD []

/-- Worksheet that the matching pipeline resolves for target `t` in file
`f`: normalized lookup in the sheet mapping, then retrieval by original
name. -/
def matchedSheet (f : ExcelFile) (t : String) : Option Worksheet :=
  match dictLookup (sheet_mapping (f.sheets.map Worksheet.name)) (normalize_sheet_name t) with
  | none => none
  | some origName => findSheet f.sheets origName

/-- Rows that one occurrence of target `t` contributes for file `f`:
nothing on a missed lookup, a read error, or an empty sheet; otherwise the
extracted rows of the matched worksheet. -/
def targetContribution (f : ExcelFile) (t : String) : List ExtractedRow :=
  match matchedSheet f t with
  | none => []
  | some ws =>
    match ws.readError with
    | some _ => []
    | none => if ws.rows.isEmpty then [] else extract_rows f.name ws

/-- Rows the processing of file `f` yields under target key `t`. -/
def fileRowsFor (f : ExcelFile) (targets : List String) (t : String) : List ExtractedRow :=
  rowsFor (process_excel_file f targets).results t

/-- One entry of the session processing log (`log_message`, src/app.py
lines 28–33): a message string and a severity tag.  `log_message` is called
with its default `msg_type="info"` at its only call site (line 253). -/
structure LogEntry where
  message : String
  severity : String
deriving DecidableEq

/-- Session state (src/app.py lines 17–22): the aggregation mapping, the
processed-files name set, and the processing log. -/
structure SessionState where
  merged_data : ResultsMap
  processed_files : List String
  processing_log : List LogEntry
deriving DecidableEq

/-- Session state at session start and after `reset_all_data`. -/
def emptySession : SessionState :=
  { merged_data := [], processed_files := [], processing_log := [] }

/-- Embeds the merge of one file's results into the aggregation state
(src/app.py lines 245–246): for each target key of the file results, extend
the entry of the `defaultdict(list)` in iteration order. -/
def mergeResults (m : ResultsMap) (fileResults : ResultsMap) : ResultsMap :=
  fileResults.foldl (fun acc p => resultsAppend acc p.1 p.2) m

/-- Embeds one iteration of the processing loop (src/app.py lines 238–253):
process the file, merge its results, add its display name to the processed
set, and log every file-log line via `log_message` (default severity
`"info"`). -/
def processOneFile (targets : List String) (st : SessionState) (f : ExcelFile) : SessionState :=
  let pr := process_excel_file f targets
  { merged_data := mergeResults st.merged_data pr.results,
    processed_files :=
      if st.processed_files.contains f.name then st.processed_files
      else st.processed_files ++ [f.name],
    processing_log := st.processing_log ++ pr.log.map (fun m => ⟨m, "info"⟩) }

/-- Embeds the new-files filter (src/app.py line 224): uploaded files whose
display name is not yet in the processed set.  Computed once, before the
processing loop runs. -/
def newFiles (st : SessionState) (uploaded : List ExcelFile) : List ExcelFile :=
  uploaded.filter (fun f => !(st.processed_files.contains f.name))

/-- Embeds the preview limit (src/app.py line 231): `new_files` in full, or
its first `k` elements. -/
def filesToProcess (limit : Option Nat) (nf : List ExcelFile) : List ExcelFile :=
  match limit with
  | none => nf
  | some k => nf.take k

/-- Embeds one processing trigger (src/app.py lines 220–256): filter the
uploaded set against the processed names, apply the limit, and run the
sequential per-file loop over the session state. -/
def processTrigger (uploaded : List ExcelFile) (targets : List String) (limit : Option Nat)
    (st : SessionState) : SessionState :=
  (filesToProcess limit (newFiles st uploaded)).foldl (processOneFile targets) st

/-- A session: a sequence of processing triggers (each with its own limit
setting) over one uploaded set, starting from a given state. -/
def runTriggers (uploaded : List ExcelFile) (targets : List String) (limits : List (Option Nat))
    (st : SessionState) : SessionState :=
  limits.foldl (fun s lim => processTrigger uploaded targets lim s) st

/-- Export row for one `ExtractedRow` (src/app.py lines 116–119): the data
dict plus the three provenance columns assigned in order. -/
def rowToDict (item : ExtractedRow) : RowData :=
  dictInsert (dictInsert (dictInsert item.data "_Source_File" (Cell.str item.source_file))
    "_Source_Sheet" (Cell.str item.source_sheet)) "_Original_Row" (Cell.num item.row_index)

/-- First-seen union of the keys of a sequence of row dicts —
`pd.DataFrame(list_of_dicts)` column construction. -/
def unionKeys (rows : List RowData) : List String :=
  rows.foldl (fun acc r => r.foldl
    (fun acc2 p => if acc2.contains p.1 then acc2 else acc2 ++ [p.1]) acc) []

/-- The exported document: a single worksheet holding a table.  `cellRows`
keeps each row as its dict; the cell of row `r` at column `c` is
`dictLookup r c` (a missing key is a missing value / `NaN`), which is how
`pd.DataFrame` tabulates heterogeneous row dicts over the column union. -/
structure XlsxDoc where
  sheetName : String
  columns : List String
  cellRows : List RowData
deriving DecidableEq

/-- Embeds `create_individual_excel_file` (src/app.py lines 103–130): `None`
on an empty row sequence, otherwise one worksheet named `"Data"` whose table
has one row per input item, the data columns unioned with the three
provenance columns. -/
def create_individual_excel_file (sheet_name : String) (data_list : List ExtractedRow) :
    Option XlsxDoc :=
  if data_list.isEmpty then none
  else
    let all_rows := data_list.map rowToDict
    some { sheetName := "Data", columns := unionKeys all_rows, cellRows := all_rows }


/-! Basic lemmas about the dict operations. -/

theorem dictLookup_nil (k : String) : dictLookup ([] : List (String × α)) k = none := rfl

theorem rowsFor_nil (t : String) : rowsFor [] t = [] := rfl

theorem dictLookup_cons (p : String × α) (m : List (String × α)) (k : String) :
    dictLookup (p :: m) k = if p.1 = k then some p.2 else dictLookup m k := by
  by_cases h : p.1 = k
  · have hb : (p.1 == k) = true := by simp [h]
    simp [dictLookup, List.find?_cons, hb, h]
  · have hb : (p.1 == k) = false := by simp [h]
    simp [dictLookup, List.find?_cons, hb, h]

theorem dictLookup_dictInsert (m : List (String × α)) (k k' : String) (v : α) :
    dictLookup (dictInsert m k v) k' = if k' = k then some v else dictLookup m k' := by
  induction m with
  | nil =>
    rw [dictInsert, dictLookup_cons, dictLookup_nil]
    by_cases h : k' = k
    · simp [h]
    · have h' : ¬(k = k') := fun hh => h hh.symm
      simp [h, h']
  | cons p rest ih =>
    rw [dictInsert]
    by_cases hpk : p.1 = k
    · have hb : (p.1 == k) = true := by simp [hpk]
      rw [if_pos hb, dictLookup_cons, dictLookup_cons, hpk]
      by_cases h : k' = k
      · simp [h]
      · have h' : ¬(k = k') := fun hh => h hh.symm
        simp [h, h']
    · have hb : (p.1 == k) = false := by simp [hpk]
      rw [if_neg (by simp [hb]), dictLookup_cons, dictLookup_cons, ih]
      by_cases h : p.1 = k'
      · have hk'k : ¬(k' = k) := fun hh => hpk (by rw [h, hh])
        simp [h, hk'k]
      · simp [h]

theorem rowsFor_resultsAppend (m : ResultsMap) (k : String) (rows : List ExtractedRow)
    (t : String) :
    rowsFor (resultsAppend m k rows) t = rowsFor m t ++ (if k = t then rows else []) := by
  induction m with
  | nil =>
    rw [resultsAppend]
    by_cases h : k = t
    · simp [rowsFor, dictLookup_cons, dictLookup_nil, h]
    · have h' : ¬(t = k) := fun hh => h hh.symm
      simp [rowsFor, dictLookup_cons, dictLookup_nil, h, h']
  | cons p rest ih =>
    rw [resultsAppend]
    by_cases hpk : p.1 = k
    · have hb : (p.1 == k) = true := by simp [hpk]
      rw [if_pos hb]
      by_cases h : k = t
      · have hpt : p.1 = t := hpk.trans h
        simp [rowsFor, dictLookup_cons, hpt, h]
      · have hpt : ¬(p.1 = t) := fun hh => h (hpk.symm.trans hh ▸ rfl)
        have hpt2 : ¬(p.1 = t) := fun hh => h (by rw [← hpk, hh])
        simp [rowsFor, dictLookup_cons, hpt2, h, ih]
    · have hb : (p.1 == k) = false := by simp [hpk]
      rw [if_neg (by simp [hb])]
      by_cases h : p.1 = t
      · have hkt : ¬(k = t) := fun hh => hpk (by rw [hh, ← h])
        simp [rowsFor, dictLookup_cons, h, hkt]
      · simp only [rowsFor, dictLookup_cons, h, if_neg h]
        exact ih

theorem mem_keys_resultsAppend (m : ResultsMap) (k : String) (rows : List ExtractedRow)
    (x : String) :
    x ∈ (resultsAppend m k rows).map Prod.fst ↔ x ∈ m.map Prod.fst ∨ x = k := by
  induction m with
  | nil => simp [resultsAppend]
  | cons p rest ih =>
    rw [resultsAppend]
    by_cases hpk : p.1 = k
    · have hb : (p.1 == k) = true := by simp [hpk]
      rw [if_pos hb]
      simp only [List.map_cons, List.mem_cons]
      constructor
      · rintro (h | h)
        · exact Or.inl (Or.inl h)
        · exact Or.inl (Or.inr h)
      · rintro ((h | h) | rfl)
        · exact Or.inl h
        · exact Or.inr h
        · exact Or.inl hpk.symm
    · have hb : (p.1 == k) = false := by simp [hpk]
      rw [if_neg (by simp [hb])]
      simp only [List.map_cons, List.mem_cons, ih]
      tauto

theorem keysNodup_resultsAppend (m : ResultsMap) (k : String) (rows : List ExtractedRow)
    (h : (m.map Prod.fst).Nodup) : ((resultsAppend m k rows).map Prod.fst).Nodup := by
  induction m with
  | nil => simp [resultsAppend]
  | cons p rest ih =>
    simp only [List.map_cons, List.nodup_cons] at h
    rw [resultsAppend]
    by_cases hpk : p.1 = k
    · have hb : (p.1 == k) = true := by simp [hpk]
      rw [if_pos hb]
      simp only [List.map_cons, List.nodup_cons]
      exact ⟨h.1, h.2⟩
    · have hb : (p.1 == k) = false := by simp [hpk]
      rw [if_neg (by simp [hb])]
      simp only [List.map_cons, List.nodup_cons]
      refine ⟨fun hmem => ?_, ih h.2⟩
      rcases (mem_keys_resultsAppend rest k rows p.1).mp hmem with hm | hk
      · exact h.1 hm
      · exact hpk hk

theorem nonempty_resultsAppend (m : ResultsMap) (k : String) (rows : List ExtractedRow)
    (hm : ∀ p ∈ m, p.2 ≠ []) (hrows : rows ≠ []) :
    ∀ p ∈ resultsAppend m k rows, p.2 ≠ [] := by
  induction m with
  | nil =>
    intro p hp
    rw [resultsAppend] at hp
    rcases List.mem_singleton.mp hp with rfl
    exact hrows
  | cons q rest ih =>
    intro p hp
    rw [resultsAppend] at hp
    by_cases hqk : q.1 = k
    · have hb : (q.1 == k) = true := by simp [hqk]
      rw [if_pos hb] at hp
      rcases List.mem_cons.mp hp with rfl | hp'
      · simp only [ne_eq, List.append_eq_nil, not_and]
        intro h1
        exact absurd h1 (hm q (List.mem_cons_self _ _))
      · exact hm p (List.mem_cons_of_mem _ hp')
    · have hb : (q.1 == k) = false := by simp [hqk]
      rw [if_neg (by simp [hb])] at hp
      rcases List.mem_cons.mp hp with rfl | hp'
      · exact hm p (List.mem_cons_self _ _)
      · exact ih (fun r hr => hm r (List.mem_cons_of_mem _ hr)) p hp'

/-! Characterization of the normalized-name lookup: last worksheet wins. -/

theorem dictLookup_foldl_insert (names : List String) (m : List (String × String))
    (key : String) :
    dictLookup (names.foldl (fun acc n => dictInsert acc (normalize_sheet_name n) n) m) key =
      match (names.filter (fun n => normalize_sheet_name n == key)).getLast? with
      | some n => some n
      | none => dictLookup m key := by
  induction names generalizing m with
  | nil => simp
  | cons n ns ih =>
    rw [List.foldl_cons, ih, List.filter_cons]
    by_cases hp : normalize_sheet_name n = key
    · have hb : (normalize_sheet_name n == key) = true := by simp [hp]
      rw [if_pos (by simp [hb])]
      cases hrest : (ns.filter (fun x => normalize_sheet_name x == key)).getLast? with
      | some y =>
        have : (n :: ns.filter (fun x => normalize_sheet_name x == key)).getLast? = some y := by
          cases hfil : ns.filter (fun x => normalize_sheet_name x == key) with
          | nil => rw [hfil] at hrest; simp at hrest
          | cons z zs =>
            rw [hfil] at hrest
            rw [List.getLast?_cons_cons, hrest]
        rw [this]
      | none =>
        have hfil : ns.filter (fun x => normalize_sheet_name x == key) = [] := by
          cases hfil : ns.filter (fun x => normalize_sheet_name x == key) with
          | nil => rfl
          | cons z zs => rw [hfil] at hrest; simp [List.getLast?_cons_cons] at hrest
        rw [hfil]
        simp [dictLookup_dictInsert, hp.symm]
    · have hb : (normalize_sheet_name n == key) = false := by simp [hp]
      rw [if_neg (by simp [hb])]
      cases hrest : (ns.filter (fun x => normalize_sheet_name x == key)).getLast? with
      | some y => rfl
      | none =>
        simp only [dictLookup_dictInsert]
        have : ¬(key = normalize_sheet_name n) := fun hh => hp hh.symm
        simp [this]

/-- The sheet mapping resolves a normalized key to the last worksheet name in
enumeration order whose normalization equals the key. -/
theorem sheetMapping_lookup (names : List String) (key : String) :
    dictLookup (sheet_mapping names) key =
      (names.filter (fun n => normalize_sheet_name n == key)).getLast? := by
  rw [sheet_mapping, dictLookup_foldl_insert]
  cases (names.filter (fun n => normalize_sheet_name n == key)).getLast? with
  | some y => rfl
  | none => rfl

theorem sheetMapping_lookup_mem (names : List String) (key n : String)
    (h : dictLookup (sheet_mapping names) key = some n) :
    n ∈ names ∧ normalize_sheet_name n = key := by
  rw [sheetMapping_lookup] at h
  have hmem := List.mem_of_mem_getLast? h
  rcases List.mem_filter.mp hmem with ⟨h1, h2⟩
  exact ⟨h1, by simpa using h2⟩

theorem findSheet_name (sheets : List Worksheet) (n : String) (ws : Worksheet)
    (h : findSheet sheets n = some ws) : ws.name = n := by
  have := List.find?_some h
  simpa using this

theorem findSheet_isSome_of_mem (sheets : List Worksheet) (n : String)
    (h : n ∈ sheets.map Worksheet.name) : (findSheet sheets n).isSome := by
  rcases List.mem_map.mp h with ⟨ws, hws, rfl⟩
  rw [findSheet, List.find?_isSome]
  exact ⟨ws, hws, by simp⟩

/-! Characterization of the per-target loop results. -/

theorem rowsFor_processTarget (f : ExcelFile) (acc : TargetAcc) (t t' : String) :
    rowsFor (processTarget f acc t).1 t' =
      rowsFor acc.1 t' ++ (if t = t' then targetContribution f t else []) := by
  unfold processTarget targetContribution matchedSheet
  cases hl : dictLookup (sheet_mapping (f.sheets.map Worksheet.name))
      (normalize_sheet_name t) with
  | none => simp
  | some origName =>
    cases hf : findSheet f.sheets origName with
    | none => simp [hf]
    | some ws =>
      cases he : ws.readError with
      | some e => simp [hf, he]
      | none =>
        by_cases hrows : ws.rows.isEmpty
        · simp [hf, he, hrows]
        · simp only [hf, he, hrows, Bool.false_eq_true, if_false]
          rw [rowsFor_resultsAppend]

theorem rowsFor_foldTargets (f : ExcelFile) (targets : List String) (acc : TargetAcc)
    (t : String) :
    rowsFor (targets.foldl (processTarget f) acc).1 t =
      rowsFor acc.1 t ++
        (targets.filter (fun x => x == t)).flatMap (fun x => targetContribution f x) := by
  induction targets generalizing acc with
  | nil => simp
  | cons t' ts ih =>
    rw [List.foldl_cons, ih, rowsFor_processTarget, List.filter_cons]
    by_cases h : t' = t
    · subst h
      simp [List.append_assoc]
    · have hb : (t' == t) = false := by simp [h]
      simp [hb, h]

/-! Lemmas about `process_excel_file` as a whole. -/

theorem process_excel_file_openError (f : ExcelFile) (targets : List String) (e : String)
    (h : f.openError = some e) :
    process_excel_file f targets =
      { results := [], log := ["Error processing file " ++ f.name ++ ": " ++ e],
        tempDeleted := false } := by
  unfold process_excel_file
  rw [h]

theorem process_excel_file_results (f : ExcelFile) (targets : List String)
    (h : f.openError = none) :
    (process_excel_file f targets).results =
      (targets.foldl (processTarget f) ([], ["Processing file: " ++ f.name,
        "Found " ++ toString f.sheets.length ++ " sheets"], 0)).1 := by
  unfold process_excel_file
  rw [h]

theorem process_excel_file_tempDeleted (f : ExcelFile) (targets : List String)
    (h : f.openError = none) :
    (process_excel_file f targets).tempDeleted = true := by
  unfold process_excel_file
  rw [h]

theorem fileRowsFor_openError (f : ExcelFile) (targets : List String) (t : String)
    (e : String) (h : f.openError = some e) : fileRowsFor f targets t = [] := by
  rw [fileRowsFor, process_excel_file_openError f targets e h]
  rfl

theorem fileRowsFor_eq (f : ExcelFile) (targets : List String) (t : String)
    (h : f.openError = none) :
    fileRowsFor f targets t =
      (targets.filter (fun x => x == t)).flatMap (fun x => targetContribution f x) := by
  rw [fileRowsFor, process_excel_file_results f targets h, rowsFor_foldTargets]
  rfl

theorem extract_rows_length (fileName : String) (ws : Worksheet) :
    (extract_rows fileName ws).length = ws.rows.length := by
  simp [extract_rows, List.enum_length]

theorem extract_rows_ne_nil (fileName : String) (ws : Worksheet)
    (h : ws.rows ≠ []) : extract_rows fileName ws ≠ [] := by
  intro hc
  apply h
  have := extract_rows_length fileName ws
  rw [hc] at this
  exact List.length_eq_zero.mp this.symm

theorem processTarget_results_cases (f : ExcelFile) (acc : TargetAcc) (t : String) :
    (processTarget f acc t).1 = acc.1 ∨
      ∃ rows, rows ≠ [] ∧ (processTarget f acc t).1 = resultsAppend acc.1 t rows := by
  unfold processTarget
  cases hl : dictLookup (sheet_mapping (f.sheets.map Worksheet.name))
      (normalize_sheet_name t) with
  | none => left; rfl
  | some origName =>
    cases hf : findSheet f.sheets origName with
    | none => left; simp [hf]
    | some ws =>
      cases he : ws.readError with
      | some e => left; simp [hf, he]
      | none =>
        by_cases hrows : ws.rows.isEmpty
        · left; simp [hf, he, hrows]
        · right
          refine ⟨extract_rows f.name ws, ?_, ?_⟩
          · exact extract_rows_ne_nil _ _ (by simpa using hrows)
          · simp [hf, he, hrows]

theorem foldTargets_keysNodup (f : ExcelFile) (targets : List String) (acc : TargetAcc)
    (h : (acc.1.map Prod.fst).Nodup) :
    ((targets.foldl (processTarget f) acc).1.map Prod.fst).Nodup := by
  induction targets generalizing acc with
  | nil => exact h
  | cons t ts ih =>
    rw [List.foldl_cons]
    apply ih
    rcases processTarget_results_cases f acc t with hc | ⟨rows, _, hc⟩
    · rw [hc]; exact h
    · rw [hc]; exact keysNodup_resultsAppend _ _ _ h

theorem foldTargets_nonempty (f : ExcelFile) (targets : List String) (acc : TargetAcc)
    (h : ∀ p ∈ acc.1, p.2 ≠ []) :
    ∀ p ∈ (targets.foldl (processTarget f) acc).1, p.2 ≠ [] := by
  induction targets generalizing acc with
  | nil => exact h
  | cons t ts ih =>
    rw [List.foldl_cons]
    apply ih
    rcases processTarget_results_cases f acc t with hc | ⟨rows, hrows, hc⟩
    · rw [hc]; exact h
    · rw [hc]; exact nonempty_resultsAppend _ _ _ h hrows

theorem process_results_keysNodup (f : ExcelFile) (targets : List String) :
    (((process_excel_file f targets).results).map Prod.fst).Nodup := by
  cases h : f.openError with
  | some e => rw [process_excel_file_openError f targets e h]; simp
  | none =>
    rw [process_excel_file_results f targets h]
    exact foldTargets_keysNodup f targets _ (by simp)

theorem process_results_nonempty (f : ExcelFile) (targets : List String) :
    ∀ p ∈ (process_excel_file f targets).results, p.2 ≠ [] := by
  cases h : f.openError with
  | some e => rw [process_excel_file_openError f targets e h]; simp
  | none =>
    rw [process_excel_file_results f targets h]
    exact foldTargets_nonempty f targets _ (by simp)

/-! Lemmas about merging results into the session state. -/

theorem dictLookup_eq_none (m : List (String × α)) (x : String)
    (h : x ∉ m.map Prod.fst) : dictLookup m x = none := by
  rw [dictLookup, List.find?_eq_none.mpr]
  · rfl
  · intro p hp hc
    exact h (List.mem_map.mpr ⟨p, hp, by simpa using hc⟩)

theorem rowsFor_mergeResults (fr : ResultsMap) (m : ResultsMap) (t : String)
    (h : (fr.map Prod.fst).Nodup) :
    rowsFor (mergeResults m fr) t = rowsFor m t ++ rowsFor fr t := by
  induction fr generalizing m with
  | nil => simp [mergeResults, rowsFor_nil]
  | cons p rest ih =>
    simp only [List.map_cons, List.nodup_cons] at h
    show rowsFor (mergeResults (resultsAppend m p.1 p.2) rest) t = _
    rw [ih _ h.2, rowsFor_resultsAppend]
    by_cases hpt : p.1 = t
    · have hrest : dictLookup rest t = none :=
        dictLookup_eq_none rest t (by rw [← hpt]; exact h.1)
      rw [show rowsFor (p :: rest) t = p.2 by simp [rowsFor, dictLookup_cons, hpt]]
      rw [show rowsFor rest t = [] by simp [rowsFor, hrest]]
      simp [hpt]
    · rw [show rowsFor (p :: rest) t = rowsFor rest t by simp [rowsFor, dictLookup_cons, hpt]]
      simp [hpt]

theorem processOneFile_merged (targets : List String) (st : SessionState) (f : ExcelFile)
    (t : String) :
    rowsFor (processOneFile targets st f).merged_data t =
      rowsFor st.merged_data t ++ fileRowsFor f targets t := by
  unfold processOneFile
  rw [rowsFor_mergeResults _ _ _ (process_results_keysNodup f targets)]
  rfl

theorem processOneFile_processed (targets : List String) (st : SessionState) (f : ExcelFile)
    (x : String) :
    x ∈ (processOneFile targets st f).processed_files ↔
      x ∈ st.processed_files ∨ x = f.name := by
  unfold processOneFile
  by_cases h : st.processed_files.contains f.name = true
  · simp only [h, if_true]
    constructor
    · exact Or.inl
    · rintro (hx | rfl)
      · exact hx
      · exact List.elem_iff.mp h
  · simp only [Bool.not_eq_true] at h
    have hmem : f.name ∉ st.processed_files := by simpa using h
    simp [hmem, List.mem_append]

theorem processOneFile_log (targets : List String) (st : SessionState) (f : ExcelFile) :
    (processOneFile targets st f).processing_log =
      st.processing_log ++
        (process_excel_file f targets).log.map (fun m => LogEntry.mk m "info") := by
  unfold processOneFile
  rfl

/-! Lemmas about the per-trigger file loop. -/

theorem batch_merged (targets : List String) (batch : List ExcelFile) (st : SessionState)
    (t : String) :
    rowsFor (batch.foldl (processOneFile targets) st).merged_data t =
      rowsFor st.merged_data t ++ batch.flatMap (fun f => fileRowsFor f targets t) := by
  induction batch generalizing st with
  | nil => simp
  | cons f fs ih =>
    rw [List.foldl_cons, ih, processOneFile_merged]
    simp [List.append_assoc]

theorem batch_processed (targets : List String) (batch : List ExcelFile) (st : SessionState)
    (x : String) :
    x ∈ (batch.foldl (processOneFile targets) st).processed_files ↔
      x ∈ st.processed_files ∨ x ∈ batch.map ExcelFile.name := by
  induction batch generalizing st with
  | nil => simp
  | cons f fs ih =>
    rw [List.foldl_cons, ih, processOneFile_processed]
    simp only [List.map_cons, List.mem_cons]
    tauto

theorem batch_log (targets : List String) (batch : List ExcelFile) (st : SessionState) :
    (batch.foldl (processOneFile targets) st).processing_log =
      st.processing_log ++ batch.flatMap
        (fun f => (process_excel_file f targets).log.map (fun m => LogEntry.mk m "info")) := by
  induction batch generalizing st with
  | nil => simp
  | cons f fs ih =>
    rw [List.foldl_cons, ih, processOneFile_log]
    simp [List.append_assoc]

/-! Lemmas about one processing trigger. -/

theorem trigger_merged (uploaded : List ExcelFile) (targets : List String)
    (limit : Option Nat) (st : SessionState) (t : String) :
    rowsFor (processTrigger uploaded targets limit st).merged_data t =
      rowsFor st.merged_data t ++
        (filesToProcess limit (newFiles st uploaded)).flatMap
          (fun f => fileRowsFor f targets t) := by
  unfold processTrigger
  exact batch_merged targets _ st t

theorem trigger_processed_mem (uploaded : List ExcelFile) (targets : List String)
    (limit : Option Nat) (st : SessionState) (x : String) :
    x ∈ (processTrigger uploaded targets limit st).processed_files ↔
      x ∈ st.processed_files ∨
        x ∈ (filesToProcess limit (newFiles st uploaded)).map ExcelFile.name := by
  unfold processTrigger
  exact batch_processed targets _ st x

theorem trigger_log (uploaded : List ExcelFile) (targets : List String)
    (limit : Option Nat) (st : SessionState) :
    (processTrigger uploaded targets limit st).processing_log =
      st.processing_log ++ (filesToProcess limit (newFiles st uploaded)).flatMap
        (fun f => (process_excel_file f targets).log.map (fun m => LogEntry.mk m "info")) := by
  unfold processTrigger
  exact batch_log targets _ st

theorem full_trigger_processed (uploaded : List ExcelFile) (targets : List String)
    (st : SessionState) (f : ExcelFile) (hf : f ∈ uploaded) :
    f.name ∈ (processTrigger uploaded targets none st).processed_files := by
  rw [trigger_processed_mem]
  by_cases h : f.name ∈ st.processed_files
  · exact Or.inl h
  · right
    refine List.mem_map.mpr ⟨f, ?_, rfl⟩
    show f ∈ newFiles st uploaded
    rw [newFiles, List.mem_filter]
    refine ⟨hf, ?_⟩
    simpa using h

theorem trigger_of_no_new (uploaded : List ExcelFile) (targets : List String)
    (limit : Option Nat) (st : SessionState)
    (h : ∀ f ∈ uploaded, f.name ∈ st.processed_files) :
    processTrigger uploaded targets limit st = st := by
  have hnf : newFiles st uploaded = [] := by
    rw [newFiles, List.filter_eq_nil_iff]
    intro f hf
    simpa using h f hf
  unfold processTrigger
  rw [hnf]
  cases limit with
  | none => rfl
  | some k => simp [filesToProcess]

theorem second_trigger_noop (uploaded : List ExcelFile) (targets : List String)
    (st : SessionState) (lim2 : Option Nat) :
    processTrigger uploaded targets lim2 (processTrigger uploaded targets none st) =
      processTrigger uploaded targets none st :=
  trigger_of_no_new uploaded targets lim2 _
    (fun f hf => full_trigger_processed uploaded targets st f hf)

/-! Counting machinery for the re-processing guard. -/

theorem sum_filter_or {α : Type} (l : List α) (p q : α → Bool) (g : α → Nat)
    (h : ∀ x ∈ l, ¬(p x = true ∧ q x = true)) :
    ((l.filter (fun x => p x || q x)).map g).sum
      = ((l.filter p).map g).sum + ((l.filter q).map g).sum := by
  induction l with
  | nil => simp
  | cons a l ih =>
    have htail : ∀ x ∈ l, ¬(p x = true ∧ q x = true) :=
      fun x hx => h x (List.mem_cons_of_mem _ hx)
    have hhead := h a (List.mem_cons_self _ _)
    rw [List.filter_cons, List.filter_cons, List.filter_cons]
    cases hp : p a with
    | true =>
      have hq : q a = false := by
        cases hqa : q a with
        | true => exact absurd ⟨hp, hqa⟩ hhead
        | false => rfl
      simp only [hp, hq, Bool.true_or, if_true, Bool.false_eq_true, if_false,
        List.map_cons, List.sum_cons, ih htail]
      omega
    | false =>
      cases hq : q a with
      | true =>
        simp only [hp, hq, Bool.false_or, if_true, Bool.false_eq_true, if_false,
          List.map_cons, List.sum_cons, ih htail]
        omega
      | false =>
        simp only [hp, hq, Bool.false_or, Bool.false_eq_true, if_false, ih htail]

theorem filter_names_eq (s l : List ExcelFile) (hs : s.Sublist l)
    (h : (l.map ExcelFile.name).Nodup) :
    l.filter (fun f => decide (f.name ∈ s.map ExcelFile.name)) = s := by
  induction hs with
  | slnil => simp
  | @cons s2 l2 a hsub ih =>
    simp only [List.map_cons, List.nodup_cons] at h
    rw [List.filter_cons]
    have hcond : decide (a.name ∈ s2.map ExcelFile.name) = false := by
      simp only [decide_eq_false_iff_not]
      intro hc
      rcases List.mem_map.mp hc with ⟨g, hg, hgname⟩
      exact h.1 (List.mem_map.mpr ⟨g, hsub.subset hg, hgname⟩)
    rw [hcond]
    simp only [Bool.false_eq_true, if_false]
    exact ih h.2
  | @cons₂ s2 l2 a hsub ih =>
    simp only [List.map_cons, List.nodup_cons] at h
    rw [List.filter_cons]
    have hcond : decide (a.name ∈ (a :: s2).map ExcelFile.name) = true := by simp
    rw [hcond]
    simp only [if_true]
    congr 1
    have hfc : List.filter (fun f => decide (f.name ∈ (a :: s2).map ExcelFile.name)) l2
        = List.filter (fun f => decide (f.name ∈ s2.map ExcelFile.name)) l2 := by
      apply List.filter_congr
      intro f hf
      have hne : f.name ≠ a.name := fun hc => h.1 (List.mem_map.mpr ⟨f, hf, hc⟩)
      simp [hne]
    rw [hfc]
    exact ih h.2

/-- Invariant of the session state over one uploaded set: for every target,
the aggregated row count equals the sum of per-file matched-row counts over
the uploaded files whose display name is in the processed set, each file
counted exactly once. -/
def sessionInv (uploaded : List ExcelFile) (targets : List String) (st : SessionState) : Prop :=
  ∀ t, (rowsFor st.merged_data t).length =
    ((uploaded.filter (fun f => st.processed_files.contains f.name)).map
      (fun f => (fileRowsFor f targets t).length)).sum

theorem sessionInv_empty (uploaded : List ExcelFile) (targets : List String) :
    sessionInv uploaded targets emptySession := by
  intro t
  have hfil : uploaded.filter (fun f => (emptySession.processed_files).contains f.name) = [] := by
    rw [List.filter_eq_nil_iff]
    intro f _
    simp [emptySession]
  rw [hfil]
  simp [emptySession, rowsFor_nil]

theorem batch_sublist (uploaded : List ExcelFile) (limit : Option Nat) (st : SessionState) :
    (filesToProcess limit (newFiles st uploaded)).Sublist uploaded := by
  have h1 : (newFiles st uploaded).Sublist uploaded := List.filter_sublist _
  cases limit with
  | none => exact h1
  | some k => exact (List.take_sublist _ _).trans h1

theorem batch_subset_newFiles (uploaded : List ExcelFile) (limit : Option Nat)
    (st : SessionState) (g : ExcelFile)
    (hg : g ∈ filesToProcess limit (newFiles st uploaded)) : g ∈ newFiles st uploaded := by
  cases limit with
  | none => exact hg
  | some k => exact List.take_subset _ _ hg

theorem sessionInv_step (uploaded : List ExcelFile) (targets : List String)
    (limit : Option Nat) (st : SessionState)
    (hnodup : (uploaded.map ExcelFile.name).Nodup)
    (hinv : sessionInv uploaded targets st) :
    sessionInv uploaded targets (processTrigger uploaded targets limit st) := by
  intro t
  have hpred : ∀ f ∈ uploaded,
      (processTrigger uploaded targets limit st).processed_files.contains f.name
        = (st.processed_files.contains f.name ||
            decide (f.name ∈ (filesToProcess limit (newFiles st uploaded)).map
              ExcelFile.name)) := by
    intro f _
    by_cases hmem : f.name ∈ (processTrigger uploaded targets limit st).processed_files
    · have h1 : (processTrigger uploaded targets limit st).processed_files.contains f.name
          = true := by simpa using hmem
      rw [h1]
      rcases (trigger_processed_mem uploaded targets limit st f.name).mp hmem with hold | hnew
      · have h2 : st.processed_files.contains f.name = true := by simpa using hold
        rw [h2, Bool.true_or]
      · have h2 : decide (f.name ∈ (filesToProcess limit (newFiles st uploaded)).map
            ExcelFile.name) = true := by simpa using hnew
        rw [h2, Bool.or_true]
    · have h1 : (processTrigger uploaded targets limit st).processed_files.contains f.name
          = false := by simpa using hmem
      rw [h1]
      have hold : f.name ∉ st.processed_files :=
        fun hc => hmem ((trigger_processed_mem uploaded targets limit st f.name).mpr
          (Or.inl hc))
      have hnew : f.name ∉ (filesToProcess limit (newFiles st uploaded)).map ExcelFile.name :=
        fun hc => hmem ((trigger_processed_mem uploaded targets limit st f.name).mpr
          (Or.inr hc))
      have e1 : st.processed_files.contains f.name = false := by simpa using hold
      have e2 : decide (f.name ∈ (filesToProcess limit (newFiles st uploaded)).map
          ExcelFile.name) = false := by simpa using hnew
      rw [e1, e2, Bool.or_self]
  have hdisj : ∀ f ∈ uploaded,
      ¬(st.processed_files.contains f.name = true ∧
        decide (f.name ∈ (filesToProcess limit (newFiles st uploaded)).map
          ExcelFile.name) = true) := by
    rintro f _ ⟨hp, hq⟩
    have hfq : f.name ∈ (filesToProcess limit (newFiles st uploaded)).map ExcelFile.name := by
      simpa using hq
    rcases List.mem_map.mp hfq with ⟨g, hg, hgname⟩
    have hgnew : g ∈ newFiles st uploaded := batch_subset_newFiles uploaded limit st g hg
    rcases List.mem_filter.mp hgnew with ⟨_, hcond⟩
    have hgfalse : st.processed_files.contains g.name = false := by
      have : g.name ∉ st.processed_files := by simpa using hcond
      simpa using this
    rw [hgname] at hgfalse
    rw [hp] at hgfalse
    exact Bool.true_eq_false.mp hgfalse
  rw [trigger_merged, List.length_append, hinv t, List.length_flatMap,
    List.filter_congr hpred,
    sum_filter_or uploaded _ _ _ hdisj,
    filter_names_eq _ uploaded (batch_sublist uploaded limit st) hnodup]
  rfl

theorem sessionInv_run (uploaded : List ExcelFile) (targets : List String)
    (limits : List (Option Nat)) (st : SessionState)
    (hnodup : (uploaded.map ExcelFile.name).Nodup)
    (h : sessionInv uploaded targets st) :
    sessionInv uploaded targets (runTriggers uploaded targets limits st) := by
  induction limits generalizing st with
  | nil => exact h
  | cons lim ls ih =>
    show sessionInv uploaded targets
      (runTriggers uploaded targets ls (processTrigger uploaded targets lim st))
    exact ih _ (sessionInv_step uploaded targets lim st hnodup h)

/-! Nonemptiness of aggregation entries. -/

theorem mergeResults_nonempty (fr m : ResultsMap)
    (hm : ∀ p ∈ m, p.2 ≠ []) (hfr : ∀ p ∈ fr, p.2 ≠ []) :
    ∀ p ∈ mergeResults m fr, p.2 ≠ [] := by
  induction fr generalizing m with
  | nil => exact hm
  | cons q rest ih =>
    show ∀ p ∈ mergeResults (resultsAppend m q.1 q.2) rest, p.2 ≠ []
    exact ih _
      (nonempty_resultsAppend m q.1 q.2 hm (hfr q (List.mem_cons_self _ _)))
      (fun p hp => hfr p (List.mem_cons_of_mem _ hp))

theorem processOneFile_nonempty (targets : List String) (st : SessionState) (f : ExcelFile)
    (h : ∀ p ∈ st.merged_data, p.2 ≠ []) :
    ∀ p ∈ (processOneFile targets st f).merged_data, p.2 ≠ [] := by
  unfold processOneFile
  exact mergeResults_nonempty _ _ h (process_results_nonempty f targets)

theorem trigger_entries_nonempty (uploaded : List ExcelFile) (targets : List String)
    (limit : Option Nat) (st : SessionState)
    (h : ∀ p ∈ st.merged_data, p.2 ≠ []) :
    ∀ p ∈ (processTrigger uploaded targets limit st).merged_data, p.2 ≠ [] := by
  unfold processTrigger
  generalize filesToProcess limit (newFiles st uploaded) = batch
  induction batch generalizing st with
  | nil => exact h
  | cons f fs ih =>
    rw [List.foldl_cons]
    exact ih _ (processOneFile_nonempty targets st f h)

/-! Log-message lemmas for the per-file processing. -/

theorem processTarget_log_extends (f : ExcelFile) (acc : TargetAcc) (t : String) :
    ∃ add, (processTarget f acc t).2.1 = acc.2.1 ++ add := by
  unfold processTarget
  cases hl : dictLookup (sheet_mapping (f.sheets.map Worksheet.name))
      (normalize_sheet_name t) with
  | none => exact ⟨_, rfl⟩
  | some origName =>
    cases hf : findSheet f.sheets origName with
    | none => exact ⟨[], by simp [hf]⟩
    | some ws =>
      cases he : ws.readError with
      | some e =>
        exact ⟨["Error reading sheet " ++ origName ++ ": " ++ e], by simp [hf, he]⟩
      | none =>
        by_cases hrows : ws.rows.isEmpty
        · exact ⟨["Sheet " ++ origName ++ " is empty"], by simp [hf, he, hrows]⟩
        · exact ⟨["Found sheet " ++ origName], by simp [hf, he, hrows]⟩

theorem foldTargets_log_mono (f : ExcelFile) (targets : List String) (acc : TargetAcc)
    (msg : String) (h : msg ∈ acc.2.1) :
    msg ∈ (targets.foldl (processTarget f) acc).2.1 := by
  induction targets generalizing acc with
  | nil => exact h
  | cons t ts ih =>
    rw [List.foldl_cons]
    apply ih
    rcases processTarget_log_extends f acc t with ⟨add, hadd⟩
    rw [hadd]
    exact List.mem_append_left _ h

theorem matchedSheet_elim (f : ExcelFile) (t : String) (ws : Worksheet)
    (h : matchedSheet f t = some ws) :
    ∃ origName, dictLookup (sheet_mapping (f.sheets.map Worksheet.name))
        (normalize_sheet_name t) = some origName ∧
      findSheet f.sheets origName = some ws ∧ ws.name = origName := by
  unfold matchedSheet at h
  cases hl : dictLookup (sheet_mapping (f.sheets.map Worksheet.name))
      (normalize_sheet_name t) with
  | none => rw [hl] at h; exact absurd h (by simp)
  | some origName =>
    rw [hl] at h
    exact ⟨origName, rfl, h, findSheet_name _ _ _ h⟩

theorem processTarget_readError_msg (f : ExcelFile) (acc : TargetAcc) (t : String)
    (ws : Worksheet) (e : String) (hm : matchedSheet f t = some ws)
    (he : ws.readError = some e) :
    ("Error reading sheet " ++ ws.name ++ ": " ++ e) ∈ (processTarget f acc t).2.1 := by
  rcases matchedSheet_elim f t ws hm with ⟨origName, hl, hf, hname⟩
  unfold processTarget
  rw [hl]
  simp only [hf, he]
  rw [hname]
  exact List.mem_append_right _ (List.mem_singleton.mpr rfl)

theorem processTarget_empty_msg (f : ExcelFile) (acc : TargetAcc) (t : String)
    (ws : Worksheet) (hm : matchedSheet f t = some ws)
    (he : ws.readError = none) (hrows : ws.rows = []) :
    ("Sheet " ++ ws.name ++ " is empty") ∈ (processTarget f acc t).2.1 := by
  rcases matchedSheet_elim f t ws hm with ⟨origName, hl, hf, hname⟩
  unfold processTarget
  rw [hl]
  simp only [hf, he, hrows, List.isEmpty_nil, if_true]
  rw [hname]
  exact List.mem_append_right _ (List.mem_singleton.mpr rfl)

theorem foldTargets_msg (f : ExcelFile) (targets : List String) (acc : TargetAcc)
    (t : String) (msg : String) (ht : t ∈ targets)
    (hstep : ∀ acc2 : TargetAcc, msg ∈ (processTarget f acc2 t).2.1) :
    msg ∈ (targets.foldl (processTarget f) acc).2.1 := by
  induction targets generalizing acc with
  | nil => cases ht
  | cons u ts ih =>
    rw [List.foldl_cons]
    rcases List.mem_cons.mp ht with rfl | ht'
    · exact foldTargets_log_mono f ts _ msg (hstep acc)
    · exact ih _ ht'

theorem process_excel_file_log_split (f : ExcelFile) (targets : List String)
    (h : f.openError = none) :
    ∃ tail, (process_excel_file f targets).log =
      (targets.foldl (processTarget f) ([], ["Processing file: " ++ f.name,
        "Found " ++ toString f.sheets.length ++ " sheets"], 0)).2.1 ++ tail := by
  unfold process_excel_file
  rw [h]
  exact ⟨_, rfl⟩

theorem process_readError_msg (f : ExcelFile) (targets : List String) (t : String)
    (ws : Worksheet) (e : String) (hopen : f.openError = none) (ht : t ∈ targets)
    (hm : matchedSheet f t = some ws) (he : ws.readError = some e) :
    ("Error reading sheet " ++ ws.name ++ ": " ++ e) ∈ (process_excel_file f targets).log := by
  rcases process_excel_file_log_split f targets hopen with ⟨tail, hlog⟩
  rw [hlog]
  exact List.mem_append_left _ (foldTargets_msg f targets _ t _ ht
    (fun acc2 => processTarget_readError_msg f acc2 t ws e hm he))

theorem process_empty_msg (f : ExcelFile) (targets : List String) (t : String)
    (ws : Worksheet) (hopen : f.openError = none) (ht : t ∈ targets)
    (hm : matchedSheet f t = some ws) (he : ws.readError = none)
    (hrows : ws.rows = []) :
    ("Sheet " ++ ws.name ++ " is empty") ∈ (process_excel_file f targets).log := by
  rcases process_excel_file_log_split f targets hopen with ⟨tail, hlog⟩
  rw [hlog]
  exact List.mem_append_left _ (foldTargets_msg f targets _ t _ ht
    (fun acc2 => processTarget_empty_msg f acc2 t ws hm he hrows))

theorem trigger_msg_mem (uploaded : List ExcelFile) (targets : List String)
    (limit : Option Nat) (st : SessionState) (f : ExcelFile) (msg : String)
    (hf : f ∈ filesToProcess limit (newFiles st uploaded))
    (hmsg : msg ∈ (process_excel_file f targets).log) :
    LogEntry.mk msg "info" ∈ (processTrigger uploaded targets limit st).processing_log := by
  rw [trigger_log]
  refine List.mem_append_right _ (List.mem_flatMap.mpr ⟨f, hf, ?_⟩)
  exact List.mem_map.mpr ⟨msg, hmsg, rfl⟩

theorem trigger_severity (uploaded : List ExcelFile) (targets : List String)
    (limit : Option Nat) (st : SessionState) :
    ∀ en ∈ (processTrigger uploaded targets limit st).processing_log,
      en ∈ st.processing_log ∨ en.severity = "info" := by
  intro en hen
  rw [trigger_log] at hen
  rcases List.mem_append.mp hen with hold | hnew
  · exact Or.inl hold
  · right
    rcases List.mem_flatMap.mp hnew with ⟨f, _, hf2⟩
    rcases List.mem_map.mp hf2 with ⟨m, _, rfl⟩
    rfl

/-! Lemmas for the exporter. -/

theorem mem_keys_dictInsert (m : List (String × α)) (k : String) (v : α) (x : String) :
    x ∈ (dictInsert m k v).map Prod.fst ↔ x ∈ m.map Prod.fst ∨ x = k := by
  induction m with
  | nil => simp [dictInsert]
  | cons p rest ih =>
    rw [dictInsert]
    by_cases hpk : p.1 = k
    · have hb : (p.1 == k) = true := by simp [hpk]
      rw [if_pos hb]
      simp only [List.map_cons, List.mem_cons]
      constructor
      · rintro (rfl | h)
        · exact Or.inr rfl
        · exact Or.inl (Or.inr h)
      · rintro ((h | h) | rfl)
        · exact Or.inl (hpk ▸ h)
        · exact Or.inr h
        · exact Or.inl rfl
    · have hb : (p.1 == k) = false := by simp [hpk]
      rw [if_neg (by simp [hb])]
      simp only [List.map_cons, List.mem_cons, ih]
      tauto

theorem mem_unionKeys_inner (r : RowData) (acc : List String) (c : String) :
    c ∈ r.foldl (fun acc2 p => if acc2.contains p.1 then acc2 else acc2 ++ [p.1]) acc ↔
      c ∈ acc ∨ c ∈ r.map Prod.fst := by
  induction r generalizing acc with
  | nil => simp
  | cons p rest ih =>
    rw [List.foldl_cons, ih]
    by_cases h : acc.contains p.1
    · have hmem : p.1 ∈ acc := by simpa using h
      rw [if_pos h]
      simp only [List.map_cons, List.mem_cons]
      constructor
      · rintro (h1 | h2)
        · exact Or.inl h1
        · exact Or.inr (Or.inr h2)
      · rintro (h1 | rfl | h2)
        · exact Or.inl h1
        · exact Or.inl hmem
        · exact Or.inr h2
    · rw [if_neg h]
      simp only [List.mem_append, List.mem_singleton, List.map_cons, List.mem_cons]
      tauto

theorem mem_unionKeys (rows : List RowData) (c : String) :
    c ∈ unionKeys rows ↔ ∃ r ∈ rows, c ∈ r.map Prod.fst := by
  unfold unionKeys
  have hgen : ∀ (acc : List String),
      c ∈ rows.foldl (fun a r => r.foldl
        (fun acc2 p => if acc2.contains p.1 then acc2 else acc2 ++ [p.1]) a) acc ↔
        c ∈ acc ∨ ∃ r ∈ rows, c ∈ r.map Prod.fst := by
    induction rows with
    | nil => simp
    | cons r rest ih =>
      intro acc
      rw [List.foldl_cons, ih, mem_unionKeys_inner]
      simp only [List.mem_cons]
      constructor
      · rintro ((h1 | h2) | ⟨r2, hr2, hc⟩)
        · exact Or.inl h1
        · exact Or.inr ⟨r, Or.inl rfl, h2⟩
        · exact Or.inr ⟨r2, Or.inr hr2, hc⟩
      · rintro (h1 | ⟨r2, (rfl | hr2), hc⟩)
        · exact Or.inl (Or.inl h1)
        · exact Or.inl (Or.inr hc)
        · exact Or.inr ⟨r2, hr2, hc⟩
  rw [hgen []]
  simp

theorem rowToDict_sourceFile (item : ExtractedRow) :
    dictLookup (rowToDict item) "_Source_File" = some (Cell.str item.source_file) := by
  unfold rowToDict
  rw [dictLookup_dictInsert, dictLookup_dictInsert, dictLookup_dictInsert]
  simp

theorem rowToDict_sourceSheet (item : ExtractedRow) :
    dictLookup (rowToDict item) "_Source_Sheet" = some (Cell.str item.source_sheet) := by
  unfold rowToDict
  rw [dictLookup_dictInsert, dictLookup_dictInsert]
  simp

theorem rowToDict_originalRow (item : ExtractedRow) :
    dictLookup (rowToDict item) "_Original_Row" = some (Cell.num item.row_index) := by
  unfold rowToDict
  rw [dictLookup_dictInsert]
  simp

theorem mem_keys_rowToDict (item : ExtractedRow) (c : String) :
    c ∈ (rowToDict item).map Prod.fst ↔
      c ∈ item.data.map Prod.fst ∨ c = "_Source_File" ∨ c = "_Source_Sheet" ∨
        c = "_Original_Row" := by
  unfold rowToDict
  rw [mem_keys_dictInsert, mem_keys_dictInsert, mem_keys_dictInsert]
  tauto

/-! Lemmas about target contributions and extraction. -/

theorem targetContribution_eq (f : ExcelFile) (t : String) (ws : Worksheet)
    (hm : matchedSheet f t = some ws) (he : ws.readError = none)
    (hrows : ws.rows ≠ []) :
    targetContribution f t = extract_rows f.name ws := by
  unfold targetContribution
  rw [hm]
  dsimp only
  rw [he]
  have : ws.rows.isEmpty = false := by
    cases hr : ws.rows with
    | nil => exact absurd hr hrows
    | cons a l => rfl
  rw [this]
  simp

theorem targetContribution_source (f : ExcelFile) (t : String) (r : ExtractedRow)
    (hr : r ∈ targetContribution f t) :
    ∃ ws, matchedSheet f t = some ws ∧ r.source_sheet = ws.name ∧
      r.source_file = f.name := by
  unfold targetContribution at hr
  cases hm : matchedSheet f t with
  | none => rw [hm] at hr; cases hr
  | some ws =>
    rw [hm] at hr
    dsimp only at hr
    cases he : ws.readError with
    | some e => rw [he] at hr; cases hr
    | none =>
      rw [he] at hr
      by_cases hempty : ws.rows.isEmpty
      · rw [if_pos hempty] at hr; cases hr
      · rw [if_neg hempty] at hr
        rcases List.mem_map.mp hr with ⟨p, _, rfl⟩
        exact ⟨ws, rfl, rfl, rfl⟩

theorem fileRowsFor_mem_source (f : ExcelFile) (targets : List String) (t : String)
    (ws : Worksheet) (hopen : f.openError = none) (hm : matchedSheet f t = some ws) :
    ∀ r ∈ fileRowsFor f targets t, r.source_sheet = ws.name := by
  intro r hr
  rw [fileRowsFor_eq f targets t hopen] at hr
  rcases List.mem_flatMap.mp hr with ⟨x, hx, hrx⟩
  have hxt : x = t := by
    rcases List.mem_filter.mp hx with ⟨_, hbeq⟩
    simpa using hbeq
  subst hxt
  rcases targetContribution_source f x r hrx with ⟨ws2, hm2, hsheet, _⟩
  rw [hm] at hm2
  rw [hsheet, Option.some_inj.mp hm2]

/-! The normalizer agrees with the specification text. -/

theorem normalize_eq_spec (s : String) : normalize_sheet_name s = normalizeSpec s := by
  unfold normalize_sheet_name normalizeSpec
  rw [List.filter_filter]
  congr 1
  apply List.filter_congr
  intro c _
  cases hsp : (c != ' ') with
  | true => simp [hsp]
  | false => simp [hsp]

theorem sheetMapping_match_iff (names : List String) (t : String) :
    (dictLookup (sheet_mapping names) (normalize_sheet_name t)).isSome = true ↔
      ∃ n ∈ names, normalize_sheet_name n = normalize_sheet_name t := by
  rw [sheetMapping_lookup, List.getLast?_isSome]
  constructor
  · intro h
    rcases List.exists_mem_of_ne_nil _ h with ⟨n, hn⟩
    rcases List.mem_filter.mp hn with ⟨h1, h2⟩
    exact ⟨n, h1, by simpa using h2⟩
  · rintro ⟨n, hn, heq⟩
    intro hc
    rw [List.filter_eq_nil_iff] at hc
    exact hc n hn (by simpa using heq)

/-! Claim theorems. -/

/-- C2: for every input string, `normalize_sheet_name` trims the ends,
lowercases, and removes all space and underscore characters (agreeing with
the spec-modelled `normalizeSpec`); the concrete example
`normalize(" Final MR_AC ") == normalize("finalmrac")` holds; and a target
name matches some worksheet of a workbook (the normalized-name lookup
succeeds) iff some worksheet name has the same normalized form. -/
theorem c2_normalize :
    (∀ s, normalize_sheet_name s = normalizeSpec s) ∧
    normalize_sheet_name " Final MR_AC " = normalize_sheet_name "finalmrac" ∧
    ∀ (names : List String) (t : String),
      (dictLookup (sheet_mapping names) (normalize_sheet_name t)).isSome = true ↔
        ∃ n ∈ names, normalize_sheet_name n = normalize_sheet_name t :=
  ⟨normalize_eq_spec, by decide, sheetMapping_match_iff⟩

/-- Sample file for the C8 counterexample: opening/parsing raises. -/
def c8File : ExcelFile := { name := "corrupt.xlsx", sheets := [], openError := some "bad zip" }

/-- C8 counterexample: the claim says the temporary file is deleted before
the call returns on every outcome; but when opening/parsing the whole file
raises (`pd.ExcelFile` fails), `os.unlink` at line 96 sits inside the `try`
and is skipped, so the temporary file survives. -/
theorem c8_counterexample :
    (process_excel_file c8File ["T"]).tempDeleted = false := by decide

/-- C8 amended: the temporary file is deleted before the call returns
whenever the whole-file open/parse succeeds — including when reading a
specific worksheet raises — and is not deleted when opening/parsing the
whole file raises. -/
theorem c8_amended (f : ExcelFile) (targets : List String) :
    (f.openError = none → (process_excel_file f targets).tempDeleted = true) ∧
    (∀ e, f.openError = some e → (process_excel_file f targets).tempDeleted = false) := by
  constructor
  · intro h
    exact process_excel_file_tempDeleted f targets h
  · intro e h
    rw [process_excel_file_openError f targets e h]

/-- Sample file for the C8 witness: a per-worksheet read error occurs but
the whole-file open succeeds, and the temporary file is still deleted. -/
def c8GoodFile : ExcelFile :=
  { name := "ok.xlsx", sheets := [{ name := "T", rows := [], readError := some "boom" }] }

/-- C8 witness: the amended claim applied at a concrete file whose only
sheet raises on read (temp file deleted) and at the corrupt file (not
deleted). -/
theorem c8_witness :
    c8GoodFile.openError = none ∧
      (process_excel_file c8GoodFile ["T"]).tempDeleted = true ∧
      c8File.openError = some "bad zip" ∧
      (process_excel_file c8File ["T"]).tempDeleted = false :=
  ⟨rfl, (c8_amended c8GoodFile ["T"]).1 rfl, rfl,
    (c8_amended c8File ["T"]).2 "bad zip" rfl⟩

/-- C9: the normalized-name lookup maps a key to exactly the last worksheet
name (in enumeration order) whose normalization equals the key — silently,
with no error value — and when a target matches, the matched worksheet's
name is that last name and every row extracted for the target carries it as
`source_sheet`. -/
theorem c9_last_wins (names : List String) (key : String) (f : ExcelFile) (t : String)
    (ws : Worksheet) :
    (dictLookup (sheet_mapping names) key =
      (names.filter (fun n => normalize_sheet_name n == key)).getLast?) ∧
    (matchedSheet f t = some ws →
      some ws.name =
        ((f.sheets.map Worksheet.name).filter
          (fun n => normalize_sheet_name n == normalize_sheet_name t)).getLast? ∧
      ∀ (targets : List String) (r : ExtractedRow), f.openError = none →
        r ∈ fileRowsFor f targets t → r.source_sheet = ws.name) := by
  refine ⟨sheetMapping_lookup names key, fun hm => ⟨?_, ?_⟩⟩
  · rcases matchedSheet_elim f t ws hm with ⟨origName, hl, _, hname⟩
    rw [hname, ← sheetMapping_lookup, hl]
  · intro targets r hopen hr
    exact fileRowsFor_mem_source f targets t ws hopen hm r hr

/-- Sample worksheets for the C9 witness: two sheets normalizing to the
same key; the matching resolves to the later one. -/
def c9Sheet1 : Worksheet := { name := "Summary", rows := [[("X", Cell.num 1)]] }

/-- Second sample worksheet for the C9 witness, normalizing like the first. -/
def c9Sheet2 : Worksheet := { name := "summary ", rows := [[("Y", Cell.num 9)]] }

/-- Sample file for the C9 witness. -/
def c9File : ExcelFile := { name := "dup.xlsx", sheets := [c9Sheet1, c9Sheet2] }

/-- C9 witness: the theorem applied to a file whose worksheets `"Summary"`
and `"summary "` collide; matching resolves to `"summary "`, the last one. -/
theorem c9_witness :
    matchedSheet c9File "SUMMARY" = some c9Sheet2 ∧
      some c9Sheet2.name =
        ((c9File.sheets.map Worksheet.name).filter
          (fun n => normalize_sheet_name n == normalize_sheet_name "SUMMARY")).getLast? ∧
      ∀ (targets : List String) (r : ExtractedRow), c9File.openError = none →
        r ∈ fileRowsFor c9File targets "SUMMARY" → r.source_sheet = c9Sheet2.name :=
  ⟨by decide,
    ((c9_last_wins [] "" c9File "SUMMARY" c9Sheet2).2 (by decide)).1,
    ((c9_last_wins [] "" c9File "SUMMARY" c9Sheet2).2 (by decide)).2⟩

/-- Sample file A for C10: display name `x.xlsx`, one data row valued 1. -/
def c10FileA : ExcelFile :=
  { name := "x.xlsx", sheets := [{ name := "T", rows := [[("A", Cell.num 1)]] }] }

/-- Sample file B for C10: same display name, different contents. -/
def c10FileB : ExcelFile :=
  { name := "x.xlsx", sheets := [{ name := "T", rows := [[("A", Cell.num 2)]] }] }

/-- C10 counterexample: two distinct uploaded files share the display name
`x.xlsx`; in a single trigger both are processed and both contribute rows —
the later one is not skipped, because the new-files filter is computed once
before the loop. -/
theorem c10_counterexample :
    c10FileA ≠ c10FileB ∧ c10FileA.name = c10FileB.name ∧
    rowsFor (processTrigger [c10FileA, c10FileB] ["T"] none emptySession).merged_data "T" =
      [⟨[("A", Cell.num 1)], "x.xlsx", "T", 0⟩,
       ⟨[("A", Cell.num 2)], "x.xlsx", "T", 0⟩] := by decide

/-- C10 amended: the guard keys on the display name alone and is evaluated
once per trigger: a file whose name is already in the processed set when a
trigger starts is skipped entirely (the trigger is a no-op on a singleton
upload), while two same-named files inside the same trigger batch are both
processed and both contribute rows in order. -/
theorem c10_amended (st : SessionState) (targets : List String) (limit : Option Nat)
    (f : ExcelFile) (hf : st.processed_files.contains f.name = true) :
    processTrigger [f] targets limit st = st ∧
    ∀ (fA fB : ExcelFile) (t : String), fA.name = fB.name →
      rowsFor (processTrigger [fA, fB] targets none emptySession).merged_data t =
        fileRowsFor fA targets t ++ fileRowsFor fB targets t := by
  constructor
  · apply trigger_of_no_new
    intro g hg
    rcases List.mem_singleton.mp hg with rfl
    simpa using hf
  · intro fA fB t _
    rw [trigger_merged]
    have hnf : newFiles emptySession [fA, fB] = [fA, fB] := by
      rw [newFiles, List.filter_eq_self]
      intro g _
      simp [emptySession]
    rw [hnf]
    simp [filesToProcess, emptySession, rowsFor_nil]

/-- Session state for the C10 witness: `x.xlsx` already processed. -/
def c10State : SessionState :=
  { merged_data := [], processed_files := ["x.xlsx"], processing_log := [] }

/-- C10 witness: the amended claim applied concretely — a later trigger
with the already-processed name is a no-op, and the two same-named files of
the counterexample both contribute inside one batch. -/
theorem c10_witness :
    c10State.processed_files.contains c10FileA.name = true ∧
    processTrigger [c10FileA] ["T"] none c10State = c10State ∧
    rowsFor (processTrigger [c10FileA, c10FileB] ["T"] none emptySession).merged_data "T" =
      fileRowsFor c10FileA ["T"] "T" ++ fileRowsFor c10FileB ["T"] "T" :=
  ⟨by decide, (c10_amended c10State ["T"] none c10FileA (by decide)).1,
    (c10_amended c10State ["T"] none c10FileA (by decide)).2 c10FileA c10FileB "T" rfl⟩

/-- Sample worksheet for C7: reading it raises `boom`. -/
def c7Sheet : Worksheet := { name := "T", rows := [], readError := some "boom" }

/-- Sample file for C7. -/
def c7File : ExcelFile := { name := "bad.xlsx", sheets := [c7Sheet] }

/-- C7 counterexample: a worksheet-read exception is recorded in the session
log — its message is present — but with severity `"info"`, not `"error"`:
`log_message` is only ever called with its default `msg_type="info"`
(src/app.py line 253), so no session-log entry ever carries severity
`"error"` or `"warning"`. -/
theorem c7_counterexample :
    LogEntry.mk "Error reading sheet T: boom" "info" ∈
      (processTrigger [c7File] ["T"] none emptySession).processing_log ∧
    ¬∃ en ∈ (processTrigger [c7File] ["T"] none emptySession).processing_log,
        en.severity = "error" := by decide

/-- C7 amended: every log entry a processing trigger appends carries
severity `"info"`; a worksheet-read exception and an empty matched sheet
are both recorded (with the worksheet name and, for the exception, its
message) but at severity `"info"`, and a read failure does not abort the
remaining targets — every target still receives exactly its own
contribution. -/
theorem c7_amended (uploaded : List ExcelFile) (targets : List String) (limit : Option Nat)
    (st : SessionState) (f : ExcelFile) (t : String) (ws : Worksheet) (e : String)
    (hf : f ∈ filesToProcess limit (newFiles st uploaded))
    (hopen : f.openError = none) (ht : t ∈ targets) (hm : matchedSheet f t = some ws) :
    (∀ en ∈ (processTrigger uploaded targets limit st).processing_log,
      en ∈ st.processing_log ∨ en.severity = "info") ∧
    (ws.readError = some e →
      LogEntry.mk ("Error reading sheet " ++ ws.name ++ ": " ++ e) "info" ∈
        (processTrigger uploaded targets limit st).processing_log) ∧
    (ws.readError = none → ws.rows = [] →
      LogEntry.mk ("Sheet " ++ ws.name ++ " is empty") "info" ∈
        (processTrigger uploaded targets limit st).processing_log) ∧
    (∀ t2, fileRowsFor f targets t2 =
      (targets.filter (fun x => x == t2)).flatMap (fun x => targetContribution f x)) := by
  refine ⟨trigger_severity uploaded targets limit st, ?_, ?_, ?_⟩
  · intro he
    exact trigger_msg_mem uploaded targets limit st f _ hf
      (process_readError_msg f targets t ws e hopen ht hm he)
  · intro he hrows
    exact trigger_msg_mem uploaded targets limit st f _ hf
      (process_empty_msg f targets t ws hopen ht hm he hrows)
  · intro t2
    exact fileRowsFor_eq f targets t2 hopen

/-- C7 witness: the amended claim applied to the concrete failing file —
the read-error entry is present at severity `"info"`, and severities of all
appended entries are `"info"`. -/
theorem c7_witness :
    (c7File ∈ filesToProcess none (newFiles emptySession [c7File]) ∧
      c7File.openError = none ∧ "T" ∈ ["T"] ∧
      matchedSheet c7File "T" = some c7Sheet ∧ c7Sheet.readError = some "boom") ∧
    (∀ en ∈ (processTrigger [c7File] ["T"] none emptySession).processing_log,
      en ∈ emptySession.processing_log ∨ en.severity = "info") ∧
    LogEntry.mk ("Error reading sheet " ++ c7Sheet.name ++ ": " ++ "boom") "info" ∈
      (processTrigger [c7File] ["T"] none emptySession).processing_log :=
  ⟨⟨by decide, rfl, by decide, by decide, rfl⟩,
    (c7_amended [c7File] ["T"] none emptySession c7File "T" c7Sheet "boom" (by decide)
      rfl (by decide) (by decide)).1,
    (c7_amended [c7File] ["T"] none emptySession c7File "T" c7Sheet "boom" (by decide)
      rfl (by decide) (by decide)).2.1 rfl⟩

/-- C1: for a file that opens, a target whose normalized form matches a
worksheet, a clean read, and a nonempty sheet, processing emits exactly one
`ExtractedRow` per data row — keyed under the user-supplied target name `t`
— with `source_file` the file's display name, `source_sheet` the matched
worksheet's original name, and `row_index` the zero-based row position
(the target is assumed to occur once in the target list, as a parsed
comma-separated list of distinct names has it). -/
theorem c1_process_rows (f : ExcelFile) (targets : List String) (t : String)
    (ws : Worksheet) (hopen : f.openError = none) (hm : matchedSheet f t = some ws)
    (hread : ws.readError = none) (hrows : ws.rows ≠ [])
    (hcount : targets.count t = 1) :
    fileRowsFor f targets t =
      ws.rows.enum.map (fun p => ExtractedRow.mk p.2 f.name ws.name p.1) := by
  rw [fileRowsFor_eq f targets t hopen, List.filter_beq, hcount]
  simp only [List.replicate_one, List.flatMap_cons, List.flatMap_nil, List.append_nil]
  rw [targetContribution_eq f t ws hm hread hrows]
  simp [extract_rows]

/-- Sample worksheet for the C1 witness. -/
def c1Sheet : Worksheet :=
  { name := "final mr_ac", rows := [[("A", Cell.num 1)], [("A", Cell.num 2)]] }

/-- Sample file for the C1 witness. -/
def c1File : ExcelFile := { name := "book1.xlsx", sheets := [c1Sheet] }

/-- C1 witness: the theorem applied to a two-row worksheet matched through
normalization (`"Final MR_AC"` vs `"final mr_ac"`). -/
theorem c1_witness :
    c1File.openError = none ∧ matchedSheet c1File "Final MR_AC" = some c1Sheet ∧
      c1Sheet.readError = none ∧ c1Sheet.rows ≠ [] ∧
      (["Final MR_AC"].count "Final MR_AC") = 1 ∧
      fileRowsFor c1File ["Final MR_AC"] "Final MR_AC" =
        c1Sheet.rows.enum.map (fun p => ExtractedRow.mk p.2 c1File.name c1Sheet.name p.1) :=
  ⟨rfl, by decide, rfl, by decide, by decide,
    c1_process_rows c1File ["Final MR_AC"] "Final MR_AC" c1Sheet rfl (by decide) rfl
      (by decide) (by decide)⟩

/-- C3: (a) once a full (unlimited) trigger has run over an uploaded set,
any further trigger over the same set leaves the session state unchanged —
files whose names entered the processed set are never re-appended; and
(b) for distinct display names, after any sequence of triggers from an
empty session the total row count for each target equals the sum of that
file's matched-row count over each distinct processed file name, counted
exactly once. -/
theorem c3_guard_idempotent (uploaded : List ExcelFile) (targets : List String)
    (limits : List (Option Nat)) (t : String)
    (hnodup : (uploaded.map ExcelFile.name).Nodup) :
    (∀ (st : SessionState) (lim2 : Option Nat),
      processTrigger uploaded targets lim2 (processTrigger uploaded targets none st) =
        processTrigger uploaded targets none st) ∧
    (rowsFor (runTriggers uploaded targets limits emptySession).merged_data t).length =
      ((uploaded.filter (fun f =>
          (runTriggers uploaded targets limits emptySession).processed_files.contains
            f.name)).map (fun f => (fileRowsFor f targets t).length)).sum :=
  ⟨fun st lim2 => second_trigger_noop uploaded targets st lim2,
    sessionInv_run uploaded targets limits emptySession hnodup
      (sessionInv_empty uploaded targets) t⟩

/-- Sample file for the C3 witness. -/
def c3File : ExcelFile :=
  { name := "a.xlsx", sheets := [{ name := "T", rows := [[("A", Cell.num 7)]] }] }

/-- C3 witness: the theorem applied to a one-file upload and two
consecutive full triggers — the second trigger is a no-op and the row count
equals the single processed file's matched-row count. -/
theorem c3_witness :
    ([c3File].map ExcelFile.name).Nodup ∧
    processTrigger [c3File] ["T"] (some 5)
        (processTrigger [c3File] ["T"] none emptySession) =
      processTrigger [c3File] ["T"] none emptySession ∧
    (rowsFor (runTriggers [c3File] ["T"] [none, none] emptySession).merged_data "T").length =
      (([c3File].filter (fun f =>
          (runTriggers [c3File] ["T"] [none, none] emptySession).processed_files.contains
            f.name)).map (fun f => (fileRowsFor f ["T"] "T").length)).sum :=
  ⟨by decide,
    (c3_guard_idempotent [c3File] ["T"] [none, none] "T" (by decide)).1 emptySession (some 5),
    (c3_guard_idempotent [c3File] ["T"] [none, none] "T" (by decide)).2⟩

/-- C5: a processing trigger appends each new file's rows for a target to
the existing sequence for that key — order-preserving file by file, no
deduplication — and the no-empty-entry invariant is preserved: every key of
the aggregation state keeps a nonempty row sequence, so a key exists iff
some row has matched that target. -/
theorem c5_merge_append (uploaded : List ExcelFile) (targets : List String)
    (limit : Option Nat) (st : SessionState) (t : String) :
    rowsFor (processTrigger uploaded targets limit st).merged_data t =
      rowsFor st.merged_data t ++
        (filesToProcess limit (newFiles st uploaded)).flatMap
          (fun f => fileRowsFor f targets t) ∧
    ((∀ p ∈ st.merged_data, p.2 ≠ []) →
      ∀ p ∈ (processTrigger uploaded targets limit st).merged_data, p.2 ≠ []) :=
  ⟨trigger_merged uploaded targets limit st t,
    trigger_entries_nonempty uploaded targets limit st⟩

/-- Sample file for the C5 witness. -/
def c5File : ExcelFile :=
  { name := "b.xlsx", sheets := [{ name := "T", rows := [[("B", Cell.num 3)]] }] }

/-- C5 witness: the theorem applied from the empty session with one file —
the appended rows are exactly that file's contribution, and the populated
state keeps only nonempty entries. -/
theorem c5_witness :
    (∀ p ∈ emptySession.merged_data, p.2 ≠ []) ∧
    rowsFor (processTrigger [c5File] ["T"] none emptySession).merged_data "T" =
      rowsFor emptySession.merged_data "T" ++
        (filesToProcess none (newFiles emptySession [c5File])).flatMap
          (fun f => fileRowsFor f ["T"] "T") ∧
    ∀ p ∈ (processTrigger [c5File] ["T"] none emptySession).merged_data, p.2 ≠ [] :=
  ⟨by decide,
    (c5_merge_append [c5File] ["T"] none emptySession "T").1,
    (c5_merge_append [c5File] ["T"] none emptySession "T").2 (by decide)⟩

/-- C6: a whole-file open/parse exception is caught inside
`process_excel_file`: the call returns normally with an empty results
mapping (zero extracted rows), its log is exactly the error line carrying
the file name and the exception message, and a following file in the same
batch is still processed — the aggregation receives exactly that file's
rows. -/
theorem c6_open_error_isolated (f : ExcelFile) (targets : List String) (e : String)
    (h : f.openError = some e) :
    (process_excel_file f targets).results = [] ∧
    (process_excel_file f targets).log =
      ["Error processing file " ++ f.name ++ ": " ++ e] ∧
    ∀ (g : ExcelFile) (t : String),
      rowsFor (processTrigger [f, g] targets none emptySession).merged_data t =
        fileRowsFor g targets t := by
  refine ⟨?_, ?_, ?_⟩
  · rw [process_excel_file_openError f targets e h]
  · rw [process_excel_file_openError f targets e h]
  · intro g t
    rw [trigger_merged]
    have hnf : newFiles emptySession [f, g] = [f, g] := by
      rw [newFiles, List.filter_eq_self]
      intro x _
      simp [emptySession]
    rw [hnf]
    simp [filesToProcess, emptySession, rowsFor_nil,
      fileRowsFor_openError f targets t e h]

/-- Sample corrupt file for the C6 witness. -/
def c6Bad : ExcelFile := { name := "broken.xlsx", sheets := [], openError := some "bad zip" }

/-- Sample healthy file for the C6 witness. -/
def c6Good : ExcelFile :=
  { name := "good.xlsx", sheets := [{ name := "T", rows := [[("C", Cell.num 4)]] }] }

/-- C6 witness: the theorem applied to a corrupt file followed by a healthy
one — the corrupt file contributes nothing but the healthy file's rows all
arrive. -/
theorem c6_witness :
    c6Bad.openError = some "bad zip" ∧
    (process_excel_file c6Bad ["T"]).results = [] ∧
    (process_excel_file c6Bad ["T"]).log =
      ["Error processing file " ++ c6Bad.name ++ ": " ++ "bad zip"] ∧
    rowsFor (processTrigger [c6Bad, c6Good] ["T"] none emptySession).merged_data "T" =
      fileRowsFor c6Good ["T"] "T" :=
  ⟨rfl, (c6_open_error_isolated c6Bad ["T"] "bad zip" rfl).1,
    (c6_open_error_isolated c6Bad ["T"] "bad zip" rfl).2.1,
    (c6_open_error_isolated c6Bad ["T"] "bad zip" rfl).2.2 c6Good "T"⟩

/-- C4: export of an empty row sequence yields `none` (no document, not an
empty file); export of a nonempty sequence yields one worksheet named
`"Data"` with exactly one table row per input row, whose column set is the
union of the input rows' data keys plus the three provenance columns, and
whose provenance cells carry each row's `source_file`, `source_sheet` and
`row_index`. -/
theorem c4_export (s : String) (l : List ExtractedRow) :
    create_individual_excel_file s [] = none ∧
    (l ≠ [] → ∃ d, create_individual_excel_file s l = some d ∧
      d.sheetName = "Data" ∧ d.cellRows.length = l.length ∧
      (∀ c, c ∈ d.columns ↔
        ((∃ item ∈ l, c ∈ item.data.map Prod.fst) ∨ c = "_Source_File" ∨
          c = "_Source_Sheet" ∨ c = "_Original_Row")) ∧
      ∀ i, i < l.length → ∃ item r, l[i]? = some item ∧ d.cellRows[i]? = some r ∧
        dictLookup r "_Source_File" = some (Cell.str item.source_file) ∧
        dictLookup r "_Source_Sheet" = some (Cell.str item.source_sheet) ∧
        dictLookup r "_Original_Row" = some (Cell.num item.row_index)) := by
  constructor
  · rfl
  · intro hl
    have hemp : l.isEmpty = false := by
      cases l with
      | nil => exact absurd rfl hl
      | cons a l2 => rfl
    refine ⟨⟨"Data", unionKeys (l.map rowToDict), l.map rowToDict⟩,
      ?_, rfl, by simp, ?_, ?_⟩
    · simp [create_individual_excel_file, hemp]
    · intro c
      rw [mem_unionKeys]
      constructor
      · rintro ⟨r, hr, hc⟩
        rcases List.mem_map.mp hr with ⟨item, hitem, rfl⟩
        rcases (mem_keys_rowToDict item c).mp hc with h | h
        · exact Or.inl ⟨item, hitem, h⟩
        · tauto
      · have hpick : ∀ (hc : c = "_Source_File" ∨ c = "_Source_Sheet" ∨
            c = "_Original_Row"), ∃ r ∈ l.map rowToDict, c ∈ r.map Prod.fst := by
          intro hc
          rcases List.exists_mem_of_ne_nil l hl with ⟨item, hitem⟩
          exact ⟨rowToDict item, List.mem_map.mpr ⟨item, hitem, rfl⟩,
            (mem_keys_rowToDict item c).mpr (Or.inr hc)⟩
        rintro (⟨item, hitem, hc⟩ | h | h | h)
        · exact ⟨rowToDict item, List.mem_map.mpr ⟨item, hitem, rfl⟩,
            (mem_keys_rowToDict item c).mpr (Or.inl hc)⟩
        · exact hpick (Or.inl h)
        · exact hpick (Or.inr (Or.inl h))
        · exact hpick (Or.inr (Or.inr h))
    · intro i hi
      refine ⟨l.get ⟨i, hi⟩, rowToDict (l.get ⟨i, hi⟩), ?_, ?_,
        rowToDict_sourceFile _, rowToDict_sourceSheet _, rowToDict_originalRow _⟩
      · simp [List.getElem?_eq_getElem hi, List.get_eq_getElem]
      · rw [List.getElem?_map, List.getElem?_eq_getElem hi]
        simp [List.get_eq_getElem]

/-- Sample row for the C4 witness. -/
def c4Row : ExtractedRow := ⟨[("A", Cell.num 1)], "f.xlsx", "T", 0⟩

/-- C4 witness: the theorem applied to the empty sequence (no document) and
to a one-row sequence (a one-row `"Data"` table with the provenance
columns). -/
theorem c4_witness :
    create_individual_excel_file "S" ([] : List ExtractedRow) = none ∧
    ([c4Row] : List ExtractedRow) ≠ [] ∧
    (∃ d, create_individual_excel_file "S" [c4Row] = some d ∧
      d.sheetName = "Data" ∧ d.cellRows.length = [c4Row].length ∧
      (∀ c, c ∈ d.columns ↔
        ((∃ item ∈ [c4Row], c ∈ item.data.map Prod.fst) ∨ c = "_Source_File" ∨
          c = "_Source_Sheet" ∨ c = "_Original_Row")) ∧
      ∀ i, i < [c4Row].length → ∃ item r, [c4Row][i]? = some item ∧
        d.cellRows[i]? = some r ∧
        dictLookup r "_Source_File" = some (Cell.str item.source_file) ∧
        dictLookup r "_Source_Sheet" = some (Cell.str item.source_sheet) ∧
        dictLookup r "_Original_Row" = some (Cell.num item.row_index)) :=
  ⟨(c4_export "S" ([] : List ExtractedRow)).1, by decide,
    (c4_export "S" [c4Row]).2 (by decide)⟩
